/-
Verification of the BiOxiOptimize genetic-algorithm core (src/BiOxiOptimize.py).

The Python program is shallowly embedded over exact rationals (ℚ):
  * the component registry, the kinetic synergy function `calculate_stability`
    and the fitness evaluator `calculate_fitness` become pure ℚ functions;
  * Python floats become ℚ; Python's fallible operations (ZeroDivisionError
    from `x / sum(...)`, IndexError from list indexing) are mirrored by
    `Option`-returning variants (`normalize_opt`, `calculate_stability_opt`,
    `calculate_fitness_opt`) that return `none` exactly where Python raises;
  * the ambient `random` module becomes an explicit oracle `RNG`: an infinite
    stream of rationals (each draw of `random.random()` reads the next value,
    assumed to lie in [0,1)); `random.choice`, `random.randint` and
    `random.uniform` are derived from single draws in the standard way;
  * the generational loop `run_ga` is instrumented to return the sorted scored
    list of every generation (the Python code returns `scored[0]` of the last
    one) together with the full `all_results` history.
-/
import Mathlib

set_option maxRecDepth 8000

namespace BiOxiOptimize

/-- The ordered component registry keys (`COMPONENT_NAMES` in the source). -/
def COMPONENT_NAMES : List String :=
  ["Methyl_Oleate", "Methyl_Palmitate", "Methyl_Linoleate", "BHT_Antioxidant"]

/-- One record of the `COMPONENTS` dict: stability_IP, viscosity, cost. -/
structure CompData where
  stability_IP : ℚ
  viscosity : ℚ
  cost : ℚ
deriving DecidableEq

/-- The `COMPONENTS` registry of the source (industry data table). -/
def COMPONENTS (name : String) : CompData :=
  if name = "Methyl_Oleate" then ⟨5, 45/10, 12/10⟩
  else if name = "Methyl_Palmitate" then ⟨12, 6, 15/10⟩
  else if name = "Methyl_Linoleate" then ⟨1, 4, 13/10⟩
  else ⟨0, 10, 15⟩

/-- `POPULATION_SIZE = 100`. -/
def POPULATION_SIZE : Nat := 100

/-- `GENERATIONS = 100`. -/
def GENERATIONS : Nat := 100

/-- `BHT_SOLUBILITY_MAX = 0.002`. -/
def BHT_SOLUBILITY_MAX : ℚ := 2/1000

/-- `Vmax = 12.0` (local constant of `calculate_stability`). -/
def Vmax : ℚ := 12

/-- `Km = 0.0005` (local constant of `calculate_stability`). -/
def Km : ℚ := 5/10000

/-- The Kinetic Synergy Module (saturation function) of the source:
`base_IP + Vmax * (bht_pct / (Km + bht_pct))`. -/
def calculate_stability (bht_pct base_IP : ℚ) : ℚ :=
  base_IP + Vmax * (bht_pct / (Km + bht_pct))

/-- Fallible variant of `calculate_stability`: Python float division raises
ZeroDivisionError when the denominator `Km + bht_pct` is zero. -/
def calculate_stability_opt (bht_pct base_IP : ℚ) : Option ℚ :=
  if Km + bht_pct = 0 then none else some (calculate_stability bht_pct base_IP)

/-- `individual[COMPONENT_NAMES.index('BHT_Antioxidant')]`, index 3. -/
def bht_pct_of (individual : List ℚ) : ℚ :=
  individual.getD (COMPONENT_NAMES.indexOf "BHT_Antioxidant") 0

/-- `individual[COMPONENT_NAMES.index('Methyl_Palmitate')]`, index 1. -/
def palmitate_pct_of (individual : List ℚ) : ℚ :=
  individual.getD (COMPONENT_NAMES.indexOf "Methyl_Palmitate") 0

/-- The `base_IP` accumulator of `calculate_fitness`: sum over all components
other than the antioxidant of `pct * stability_IP`. -/
def base_IP_of (individual : List ℚ) : ℚ :=
  ((COMPONENT_NAMES.zip individual).map fun p =>
    if p.1 ≠ "BHT_Antioxidant" then p.2 * (COMPONENTS p.1).stability_IP else 0).sum

/-- The `viscosity` accumulator of `calculate_fitness`. -/
def viscosity_of (individual : List ℚ) : ℚ :=
  ((COMPONENT_NAMES.zip individual).map fun p => p.2 * (COMPONENTS p.1).viscosity).sum

/-- The `cost` accumulator of `calculate_fitness`. -/
def cost_of (individual : List ℚ) : ℚ :=
  ((COMPONENT_NAMES.zip individual).map fun p => p.2 * (COMPONENTS p.1).cost).sum

/-- The penalty accumulation block of `calculate_fitness` (four independent
weighted penalty terms, each guarded by a strict comparison). -/
def penalties_of (individual : List ℚ) : ℚ :=
  let total_IP := calculate_stability (bht_pct_of individual) (base_IP_of individual)
  (if total_IP < 8 then (8 - total_IP) * 50 else 0)
  + (if viscosity_of individual > 6 then (viscosity_of individual - 6) * 100 else 0)
  + (if palmitate_pct_of individual > 30/100 then (palmitate_pct_of individual - 30/100) * 150 else 0)
  + (if bht_pct_of individual > BHT_SOLUBILITY_MAX then
      (bht_pct_of individual - BHT_SOLUBILITY_MAX) * 500 else 0)

/-- `calculate_fitness`: returns `(fitness, total_IP, cost)`. -/
def calculate_fitness (individual : List ℚ) : ℚ × ℚ × ℚ :=
  let total_IP := calculate_stability (bht_pct_of individual) (base_IP_of individual)
  (total_IP * 2 - cost_of individual * 10 - penalties_of individual,
   total_IP, cost_of individual)

/-- Fallible variant of `calculate_fitness`: Python raises IndexError when the
individual has fewer than 4 entries (indices 1, 3 and the loop indices 0..3 are
read), and propagates ZeroDivisionError from `calculate_stability`. -/
def calculate_fitness_opt (individual : List ℚ) : Option (ℚ × ℚ × ℚ) :=
  if individual.length < 4 then none
  else
    match calculate_stability_opt (bht_pct_of individual) (base_IP_of individual) with
    | none => none
    | some total_IP =>
        some (total_IP * 2 - cost_of individual * 10 - penalties_of individual,
              total_IP, cost_of individual)

/-! ## The random oracle

The source draws all randomness from the ambient `random` module.  We embed it
as an explicit stream of rationals together with a read position; each call of
`random.random()` reads the next stream value (assumed in [0,1)).  The derived
primitives follow CPython:
`uniform a b = a + (b-a)*random()`, `randint 0 n` and `choice l` pick the index
`⌊random() * (n+1)⌋` resp. `⌊random() * len l⌋`. -/

/-- The explicit embedding of the module-global random source: an infinite
stream of draws and the current position. -/
structure RNG where
  stream : Nat → ℚ
  pos : Nat

/-- Read one draw (`random.random()`). -/
def RNG.next (g : RNG) : ℚ × RNG :=
  (g.stream g.pos, ⟨g.stream, g.pos + 1⟩)

/-- `random.uniform a b`. -/
def rand_uniform (a b : ℚ) (g : RNG) : ℚ × RNG :=
  let p := g.next
  (a + (b - a) * p.1, p.2)

/-- `random.randint 0 n` (inclusive upper bound `n`). -/
def rand_randint (n : Nat) (g : RNG) : Nat × RNG :=
  let p := g.next
  ((⌊p.1 * (n + 1 : ℚ)⌋).toNat, p.2)

/-- `random.choice l` (`d` is junk returned on an impossible out-of-range
index; Python would raise there). -/
def rand_choice {α : Type} (l : List α) (d : α) (g : RNG) : α × RNG :=
  let p := g.next
  (l.getD (⌊p.1 * (l.length : ℚ)⌋).toNat d, p.2)

/-- A stream is well-formed when every draw lies in [0,1), the range of
`random.random()`. -/
def GoodStream (s : Nat → ℚ) : Prop := ∀ n, 0 ≤ s n ∧ s n < 1

/-! ## The genetic-algorithm loop (`run_ga`) -/

/-- Simplex renormalization `[x / sum(ind) for x in ind]`. -/
def normalize (l : List ℚ) : List ℚ := l.map fun x => x / l.sum

/-- Fallible variant of `normalize`: Python raises ZeroDivisionError when the
entries sum to zero; the source performs no detection or resampling. -/
def normalize_opt (l : List ℚ) : Option (List ℚ) :=
  if l.sum = 0 then none else some (normalize l)

/-- One scored tuple `(fit, ip, cost, ind)` of the evaluation loop. -/
structure Scored where
  fit : ℚ
  ip : ℚ
  cost : ℚ
  ind : List ℚ
deriving DecidableEq

/-- Junk `Scored` used as the default of total list lookups. -/
def zeroScored : Scored := ⟨0, 0, 0, []⟩

/-- The evaluation loop: score every individual of the population. -/
def evaluate (pop : List (List ℚ)) : List Scored :=
  pop.map fun ind =>
    let r := calculate_fitness ind
    ⟨r.1, r.2.1, r.2.2, ind⟩

/-- `scored.sort(key=lambda x: x[0], reverse=True)`: a stable sort, descending
by fitness. -/
def sortScored (l : List Scored) : List Scored :=
  l.mergeSort fun a b => decide (b.fit ≤ a.fit)

/-- Elementwise arithmetic-mean crossover
`[(p1[i]+p2[i])/2 for i in range(len(p1))]`. -/
def crossover_mean (p1 p2 : List ℚ) : List ℚ :=
  (p1.zip p2).map fun p => (p.1 + p.2) / 2

/-- The repair clamp `[max(0, x) for x in child]`. -/
def clamp0 (l : List ℚ) : List ℚ := l.map fun x => max 0 x

/-- The mutation block of the reproduction loop: with probability 0.1
(`random.random() < 0.1`) add `random.uniform(-0.02, 0.02)` to the entry at
index `random.randint(0, len(child)-1)`. -/
def mutate_step (child : List ℚ) (g : RNG) : List ℚ × RNG :=
  let pm := RNG.next g
  if pm.1 < 1/10 then
    let pi := rand_randint (child.length - 1) pm.2
    let po := rand_uniform (-(2/100)) (2/100) pi.2
    (child.set pi.1 (child.getD pi.1 0 + po.1), po.2)
  else (child, pm.2)

/-- The body of the reproduction loop up to (but not including) the final
renormalization: select two parents from the top 10, cross over, possibly
mutate one entry, clamp negatives to 0. -/
def reproduce_raw (sorted : List Scored) (g : RNG) : List ℚ × RNG :=
  let c1 := rand_choice (sorted.take 10) zeroScored g
  let c2 := rand_choice (sorted.take 10) zeroScored c1.2
  let m := mutate_step (crossover_mean c1.1.ind c2.1.ind) c2.2
  (clamp0 m.1, m.2)

/-- One full reproduction step: `reproduce_raw` followed by renormalization
`[x/sum(child) for x in child]`. -/
def reproduce_child (sorted : List Scored) (g : RNG) : List ℚ × RNG :=
  let r := reproduce_raw sorted g
  (normalize r.1, r.2)

/-- The `while len(next_pop) < POPULATION_SIZE` loop, as fuel recursion on the
number of children still to append. -/
def fill_pop (sorted : List Scored) : Nat → List (List ℚ) → RNG → List (List ℚ) × RNG
  | 0, acc, g => (acc, g)
  | k+1, acc, g =>
      let r := reproduce_child sorted g
      fill_pop sorted k (acc ++ [r.1]) r.2

/-- One generation of the loop body: evaluate, record (ip, cost) pairs, sort
descending, carry the top-2 compositions, fill with children.  Returns
`(sorted scored list, recorded results, next population, RNG)`. -/
def ga_step (pop : List (List ℚ)) (g : RNG) :
    List Scored × List (ℚ × ℚ) × List (List ℚ) × RNG :=
  let scored := evaluate pop
  let results := scored.map fun s => (s.ip, s.cost)
  let sorted := sortScored scored
  let elites := [(sorted.getD 0 zeroScored).ind, (sorted.getD 1 zeroScored).ind]
  let f := fill_pop sorted (POPULATION_SIZE - 2) elites g
  (sorted, results, f.1, f.2)

/-- The `for gen in range(GENERATIONS)` loop.  `gens` accumulates each
generation's sorted scored list (the source keeps only the last one, whose
head it returns); `hist` accumulates `all_results`. -/
def ga_loop : Nat → List (List ℚ) → List (ℚ × ℚ) → List (List Scored) → RNG →
    List (List Scored) × List (ℚ × ℚ) × RNG
  | 0, _, hist, gens, g => (gens, hist, g)
  | k+1, pop, hist, gens, g =>
      let r := ga_step pop g
      ga_loop k r.2.2.1 (hist ++ r.2.1) (gens ++ [r.1]) r.2.2.2

/-- `n` consecutive draws (`[random.random() for _ in range(n)]`). -/
def draw_list : Nat → RNG → List ℚ × RNG
  | 0, g => ([], g)
  | k+1, g =>
      let p := g.next
      let r := draw_list k p.2
      (p.1 :: r.1, r.2)

/-- The raw initial population: `n` individuals of 4 draws each, before
normalization. -/
def init_raw : Nat → RNG → List (List ℚ) × RNG
  | 0, g => ([], g)
  | k+1, g =>
      let p := draw_list COMPONENT_NAMES.length g
      let r := init_raw k p.2
      (p.1 :: r.1, r.2)

/-- `run_ga`, instrumented: returns every generation's sorted scored list
(the source's return value is the head of the last one) and the full
`all_results` history. -/
def run_ga (g : RNG) : List (List Scored) × List (ℚ × ℚ) × RNG :=
  let p := init_raw POPULATION_SIZE g
  let pop := p.1.map normalize
  ga_loop GENERATIONS pop [] [] p.2

/-- Best fitness of a sorted scored list: the fitness of `scored[0]`. -/
def bestFit (l : List Scored) : ℚ := (l.getD 0 zeroScored).fit

/-- The simplex well-formedness predicate of the spec: length = |registry|,
nonnegative entries, entries summing to 1. -/
def OnSimplex (ind : List ℚ) : Prop :=
  ind.length = 4 ∧ (∀ x ∈ ind, 0 ≤ x) ∧ ind.sum = 1

/-! ## Helper lemmas -/

/-- A default-0 lookup in a list of nonnegative rationals is nonnegative. -/
lemma getD_nonneg (l : List ℚ) (h : ∀ x ∈ l, 0 ≤ x) (i : Nat) : 0 ≤ l.getD i 0 := by
  by_cases hi : i < l.length
  · rw [List.getD_eq_getElem l 0 hi]
    exact h _ (List.getElem_mem hi)
  · rw [List.getD_eq_default _ _ (by omega)]

/-! ## Claim theorems (part 1) -/

/-- C1: at the Individual [0.4, 0.3, 0.2, 0.1] the evaluator yields
base_stability 5.8, total_stability 5.8 + 12*(0.1/0.1005) = 5943/335 ≈ 17.74,
viscosity 5.4, cost 2.69; the stability, viscosity and cap penalties do not
fire (the cap check is a strict `>` and the palmitate fraction is exactly the
cap 0.30), the solubility penalty alone fires with value (0.1-0.002)*500 = 49,
and fitness = total_stability*2 - cost*10 - 49 = -27081/670 ≈ -40.42. -/
theorem fitness_eval_at_spec_point :
    base_IP_of [4/10, 3/10, 2/10, 1/10] = 29/5 ∧
    calculate_stability (bht_pct_of [4/10, 3/10, 2/10, 1/10])
        (base_IP_of [4/10, 3/10, 2/10, 1/10]) = 29/5 + 12 * ((1/10) / (1005/10000)) ∧
    calculate_stability (bht_pct_of [4/10, 3/10, 2/10, 1/10])
        (base_IP_of [4/10, 3/10, 2/10, 1/10]) = 5943/335 ∧
    viscosity_of [4/10, 3/10, 2/10, 1/10] = 27/5 ∧
    cost_of [4/10, 3/10, 2/10, 1/10] = 269/100 ∧
    ¬ (calculate_stability (bht_pct_of [4/10, 3/10, 2/10, 1/10])
        (base_IP_of [4/10, 3/10, 2/10, 1/10]) < 8) ∧
    ¬ (viscosity_of [4/10, 3/10, 2/10, 1/10] > 6) ∧
    palmitate_pct_of [4/10, 3/10, 2/10, 1/10] = 30/100 ∧
    ¬ (palmitate_pct_of [4/10, 3/10, 2/10, 1/10] > 30/100) ∧
    penalties_of [4/10, 3/10, 2/10, 1/10] =
      (bht_pct_of [4/10, 3/10, 2/10, 1/10] - BHT_SOLUBILITY_MAX) * 500 ∧
    penalties_of [4/10, 3/10, 2/10, 1/10] = 49 ∧
    (calculate_fitness [4/10, 3/10, 2/10, 1/10]).1 = 5943/335 * 2 - 269/100 * 10 - 49 ∧
    calculate_fitness [4/10, 3/10, 2/10, 1/10] = (-27081/670, 5943/335, 269/100) := by
  refine ⟨?_, ?_, ?_, ?_, ?_, ?_, ?_, ?_, ?_, ?_, ?_, ?_, ?_⟩ <;>
    simp +decide [base_IP_of, viscosity_of, cost_of, penalties_of, calculate_fitness,
      calculate_stability, bht_pct_of, palmitate_pct_of, COMPONENT_NAMES, COMPONENTS,
      BHT_SOLUBILITY_MAX, Vmax, Km] <;> norm_num

/-- C2: for every base stability `b` the synergy function satisfies
`calculate_stability 0 b = b`; it is monotone nondecreasing in the agent
percentage on [0, ∞); it stays strictly below `b + Vmax`; and its fallible
variant never raises for a nonnegative agent percentage (the denominator
`Km + x` is nonzero since `Km > 0`). -/
theorem synergy_model_props (b x x1 x2 : ℚ) (hx : 0 ≤ x) (h1 : 0 ≤ x1) (h12 : x1 ≤ x2) :
    calculate_stability 0 b = b ∧
    calculate_stability x1 b ≤ calculate_stability x2 b ∧
    calculate_stability x b < b + Vmax ∧
    calculate_stability_opt x b = some (calculate_stability x b) := by
  have hKm : (0 : ℚ) < Km := by norm_num [Km]
  have hV : (0 : ℚ) ≤ Vmax := by norm_num [Vmax]
  refine ⟨?_, ?_, ?_, ?_⟩
  · simp [calculate_stability]
  · have d1 : (0 : ℚ) < Km + x1 := by linarith
    have d2 : (0 : ℚ) < Km + x2 := by linarith
    have hfrac : x1 / (Km + x1) ≤ x2 / (Km + x2) := by
      rw [div_le_div_iff₀ d1 d2]
      nlinarith
    unfold calculate_stability
    have := mul_le_mul_of_nonneg_left hfrac hV
    linarith
  · have d : (0 : ℚ) < Km + x := by linarith
    have hfrac : x / (Km + x) < 1 := by
      rw [div_lt_one d]
      linarith
    unfold calculate_stability
    have hVpos : (0 : ℚ) < Vmax := by norm_num [Vmax]
    nlinarith
  · have d : Km + x ≠ 0 := by positivity
    simp [calculate_stability_opt, d]

/-- Witness for C2 at b = 7, x = 1, x1 = 1, x2 = 2. -/
theorem synergy_model_props_witness :
    calculate_stability 0 7 = 7 ∧
    calculate_stability 1 7 ≤ calculate_stability 2 7 ∧
    calculate_stability 1 7 < 7 + Vmax ∧
    calculate_stability_opt 1 7 = some (calculate_stability 1 7) :=
  synergy_model_props 7 1 1 2 (by norm_num) (by norm_num) (by norm_num)

/-- C6 (documents the bug): the source performs no zero-sum detection or
resampling — normalizing an all-zero draw vector reaches the bare division
`x / sum(ind)`, which is the Python error case (ZeroDivisionError), modelled
here by `normalize_opt` returning `none`. -/
theorem normalize_zero_sum_raises :
    normalize_opt (List.replicate 4 (0 : ℚ)) = none ∧
    normalize_opt (clamp0 (List.replicate 4 (0 : ℚ))) = none := by
  constructor <;> simp +decide [normalize_opt, normalize, clamp0, List.replicate]

/-- C7: the fitness evaluator is pure and total on well-formed Individuals:
its fallible embedding returns `some` (never raises) for every length-4
nonnegative vector summing to one, and evaluating an identical Individual
again yields the identical output. -/
theorem fitness_pure_total (ind : List ℚ) (hlen : ind.length = 4)
    (hpos : ∀ x ∈ ind, 0 ≤ x) (_hsum : ind.sum = 1) :
    calculate_fitness_opt ind = some (calculate_fitness ind) ∧
    ∀ ind2, ind2 = ind → calculate_fitness ind2 = calculate_fitness ind := by
  constructor
  · have hb : 0 ≤ bht_pct_of ind := getD_nonneg ind hpos _
    have hKm : (0 : ℚ) < Km := by norm_num [Km]
    have hd : Km + bht_pct_of ind ≠ 0 := by positivity
    have hlt : ¬ (ind.length < 4) := by omega
    simp [calculate_fitness_opt, calculate_stability_opt, hlt, hd, calculate_fitness]
  · intro ind2 h
    rw [h]

/-- Witness for C7 at the uniform Individual [1/4, 1/4, 1/4, 1/4]. -/
theorem fitness_pure_total_witness :
    calculate_fitness_opt [1/4, 1/4, 1/4, 1/4] =
      some (calculate_fitness [1/4, 1/4, 1/4, 1/4]) ∧
    ∀ ind2, ind2 = [(1:ℚ)/4, 1/4, 1/4, 1/4] →
      calculate_fitness ind2 = calculate_fitness [1/4, 1/4, 1/4, 1/4] :=
  fitness_pure_total [1/4, 1/4, 1/4, 1/4] (by decide)
    (by intro x hx; fin_cases hx <;> norm_num) (by norm_num)

/-- C8 (supporting determinism half): the embedded run is a deterministic
function of the explicit random stream — two runs over pointwise-equal
streams from the same position produce identical generations and history.
(The injectability half fails on the source: `run_ga()` takes no seed and
reads the module-global `random`.) -/
theorem run_ga_deterministic (s1 s2 : Nat → ℚ) (p : Nat) (h : ∀ n, s1 n = s2 n) :
    run_ga ⟨s1, p⟩ = run_ga ⟨s2, p⟩ := by
  have : s1 = s2 := funext h
  rw [this]

/-- Witness for C8 at the constant-zero stream. -/
theorem run_ga_deterministic_witness :
    run_ga ⟨fun _ => 0, 0⟩ = run_ga ⟨fun _ => 0, 0⟩ :=
  run_ga_deterministic (fun _ => 0) (fun _ => 0) 0 (fun _ => rfl)

/-! ## Helper lemmas about the GA loop -/

lemma mutate_step_stream (child : List ℚ) (g : RNG) :
    (mutate_step child g).2.stream = g.stream := by
  unfold mutate_step
  dsimp [rand_uniform, rand_randint, RNG.next]
  split <;> rfl

lemma reproduce_raw_stream (sorted : List Scored) (g : RNG) :
    (reproduce_raw sorted g).2.stream = g.stream := by
  unfold reproduce_raw
  exact mutate_step_stream _ _

lemma reproduce_child_stream (sorted : List Scored) (g : RNG) :
    (reproduce_child sorted g).2.stream = g.stream :=
  reproduce_raw_stream sorted g

lemma draw_list_stream (n : Nat) (g : RNG) : (draw_list n g).2.stream = g.stream := by
  induction n generalizing g with
  | zero => rfl
  | succ k ih => simpa [draw_list, RNG.next] using ih _

lemma init_raw_stream (n : Nat) (g : RNG) : (init_raw n g).2.stream = g.stream := by
  induction n generalizing g with
  | zero => rfl
  | succ k ih =>
      simp only [init_raw]
      rw [ih]
      exact draw_list_stream _ g

lemma clamp0_nonneg (l : List ℚ) : ∀ x ∈ clamp0 l, 0 ≤ x := by
  intro x hx
  simp only [clamp0, List.mem_map] at hx
  obtain ⟨y, -, rfl⟩ := hx
  exact le_max_left 0 y

lemma clamp0_length (l : List ℚ) : (clamp0 l).length = l.length := by
  simp [clamp0]

lemma sum_le_sum_clamp0 (l : List ℚ) : l.sum ≤ (clamp0 l).sum := by
  induction l with
  | nil => simp [clamp0]
  | cons a t ih =>
      simp only [clamp0, List.map_cons, List.sum_cons] at ih ⊢
      exact add_le_add (le_max_right 0 a) ih

lemma normalize_length (l : List ℚ) : (normalize l).length = l.length := by
  simp [normalize]

lemma sum_map_div (l : List ℚ) (r : ℚ) : (l.map fun x => x / r).sum = l.sum / r := by
  induction l with
  | nil => simp
  | cons a t ih => simp [List.sum_cons, ih, add_div]

lemma sum_normalize (l : List ℚ) (h : l.sum ≠ 0) : (normalize l).sum = 1 := by
  rw [normalize, sum_map_div, div_self h]

lemma normalize_nonneg (l : List ℚ) (hpos : ∀ x ∈ l, 0 ≤ x) (hsum : 0 < l.sum) :
    ∀ x ∈ normalize l, 0 ≤ x := by
  intro x hx
  simp only [normalize, List.mem_map] at hx
  obtain ⟨y, hy, rfl⟩ := hx
  exact div_nonneg (hpos y hy) hsum.le

lemma crossover_mean_length (p1 p2 : List ℚ) :
    (crossover_mean p1 p2).length = min p1.length p2.length := by
  simp [crossover_mean]

lemma sum_crossover_mean (p1 p2 : List ℚ) (h : p1.length = p2.length) :
    (crossover_mean p1 p2).sum = (p1.sum + p2.sum) / 2 := by
  induction p1 generalizing p2 with
  | nil =>
      cases p2 with
      | nil => simp [crossover_mean]
      | cons b t2 => simp at h
  | cons a t1 ih =>
      cases p2 with
      | nil => simp at h
      | cons b t2 =>
          simp only [List.length_cons, Nat.succ.injEq] at h
          simp only [crossover_mean, List.zip_cons_cons, List.map_cons, List.sum_cons,
            List.sum_cons] at ih ⊢
          rw [ih t2 h]
          ring

lemma sum_set_getD (l : List ℚ) (i : Nat) (a : ℚ) (h : i < l.length) :
    (l.set i (l.getD i 0 + a)).sum = l.sum + a := by
  induction l generalizing i with
  | nil => simp at h
  | cons b t ih =>
      cases i with
      | zero => simp [List.getD]; ring
      | succ j =>
          simp only [List.length_cons, Nat.succ_lt_succ_iff] at h
          simp only [List.set_cons_succ, List.sum_cons, List.getD_cons_succ]
          rw [ih j h]
          ring

lemma floor_mul_lt (u : ℚ) (n : Nat) (_h0 : 0 ≤ u) (h1 : u < 1) (hn : 0 < n) :
    (⌊u * (n : ℚ)⌋).toNat < n := by
  have hlt : u * (n : ℚ) < (n : ℚ) := by
    have : (0 : ℚ) < (n : ℚ) := by exact_mod_cast hn
    nlinarith
  have hfl : ⌊u * (n : ℚ)⌋ < (n : Int) := by
    rw [Int.floor_lt]
    exact_mod_cast hlt
  omega

lemma rand_choice_mem {α : Type} (l : List α) (d : α) (g : RNG)
    (hgood : GoodStream g.stream) (hne : l ≠ []) : (rand_choice l d g).1 ∈ l := by
  obtain ⟨h0, h1⟩ := hgood g.pos
  have hn : 0 < l.length := List.length_pos.mpr hne
  have hi : (⌊g.stream g.pos * (l.length : ℚ)⌋).toNat < l.length :=
    floor_mul_lt _ _ h0 h1 hn
  simp only [rand_choice, RNG.next]
  rw [List.getD_eq_getElem l d hi]
  exact List.getElem_mem hi

lemma rand_randint_lt (n : Nat) (g : RNG) (hgood : GoodStream g.stream) :
    (rand_randint n g).1 < n + 1 := by
  obtain ⟨h0, h1⟩ := hgood g.pos
  simpa [rand_randint, RNG.next] using floor_mul_lt _ (n + 1) h0 h1 (by omega)

lemma rand_uniform_bounds (g : RNG) (hgood : GoodStream g.stream) :
    -(2/100) ≤ (rand_uniform (-(2/100)) (2/100) g).1 ∧
    (rand_uniform (-(2/100)) (2/100) g).1 < 2/100 := by
  obtain ⟨h0, h1⟩ := hgood g.pos
  simp only [rand_uniform, RNG.next]
  constructor <;> nlinarith

lemma take10_ne (sorted : List Scored) (hne : sorted ≠ []) : sorted.take 10 ≠ [] := by
  cases sorted with
  | nil => exact absurd rfl hne
  | cons a t => simp

lemma mutate_step_shape (child : List ℚ) (g : RNG) (hgood : GoodStream g.stream)
    (hlen : 0 < child.length) :
    (mutate_step child g).1 = child ∨
    ∃ i off, i < child.length ∧ -(2/100) ≤ off ∧ off < 2/100 ∧
      (mutate_step child g).1 = child.set i (child.getD i 0 + off) := by
  unfold mutate_step
  dsimp only
  split
  · right
    refine ⟨(rand_randint (child.length - 1) (RNG.next g).2).1,
      (rand_uniform (-(2/100)) (2/100)
        (rand_randint (child.length - 1) (RNG.next g).2).2).1, ?_, ?_, ?_, rfl⟩
    · have := rand_randint_lt (child.length - 1) (RNG.next g).2 hgood
      omega
    · exact (rand_uniform_bounds (rand_randint (child.length - 1) (RNG.next g).2).2 hgood).1
    · exact (rand_uniform_bounds (rand_randint (child.length - 1) (RNG.next g).2).2 hgood).2
  · left
    rfl

lemma reproduce_raw_spec (sorted : List Scored) (g : RNG)
    (hgood : GoodStream g.stream) (hne : sorted ≠ [])
    (hsim : ∀ s ∈ sorted, OnSimplex s.ind) :
    (∀ x ∈ (reproduce_raw sorted g).1, 0 ≤ x) ∧
    (reproduce_raw sorted g).1.length = 4 ∧
    49/50 ≤ (reproduce_raw sorted g).1.sum := by
  unfold reproduce_raw
  dsimp only
  have htk := take10_ne sorted hne
  set c1 := rand_choice (sorted.take 10) zeroScored g with hc1
  set c2 := rand_choice (sorted.take 10) zeroScored c1.2 with hc2
  have hm1 : c1.1 ∈ sorted.take 10 := by
    rw [hc1]; exact rand_choice_mem _ _ _ hgood htk
  have hm2 : c2.1 ∈ sorted.take 10 := by
    rw [hc2]; exact rand_choice_mem _ _ _ hgood htk
  obtain ⟨hl1, -, hs1⟩ := hsim _ (List.take_subset _ _ hm1)
  obtain ⟨hl2, -, hs2⟩ := hsim _ (List.take_subset _ _ hm2)
  set ch := crossover_mean c1.1.ind c2.1.ind with hch
  have hchl : ch.length = 4 := by
    rw [hch, crossover_mean_length, hl1, hl2]
    exact min_self 4
  have hchs : ch.sum = 1 := by
    rw [hch, sum_crossover_mean _ _ (hl1.trans hl2.symm), hs1, hs2]
    norm_num
  have hshape := mutate_step_shape ch c2.2 hgood (by omega)
  refine ⟨clamp0_nonneg _, ?_, ?_⟩
  · rw [clamp0_length]
    rcases hshape with heq | ⟨i, off, hi, -, -, heq⟩
    · rw [heq, hchl]
    · rw [heq, List.length_set, hchl]
  · refine le_trans ?_ (sum_le_sum_clamp0 _)
    rcases hshape with heq | ⟨i, off, hi, hlo, hhi, heq⟩
    · rw [heq, hchs]
      norm_num
    · rw [heq, sum_set_getD ch i off hi, hchs]
      linarith

lemma reproduce_child_simplex (sorted : List Scored) (g : RNG)
    (hgood : GoodStream g.stream) (hne : sorted ≠ [])
    (hsim : ∀ s ∈ sorted, OnSimplex s.ind) :
    OnSimplex (reproduce_child sorted g).1 := by
  obtain ⟨hn, hl, hs⟩ := reproduce_raw_spec sorted g hgood hne hsim
  have hpos : 0 < (reproduce_raw sorted g).1.sum := lt_of_lt_of_le (by norm_num) hs
  refine ⟨?_, ?_, ?_⟩
  · show (normalize _).length = 4
    rw [normalize_length]
    exact hl
  · exact normalize_nonneg _ hn hpos
  · exact sum_normalize _ (ne_of_gt hpos)

lemma sortScored_perm (l : List Scored) : (sortScored l).Perm l :=
  List.mergeSort_perm l _

lemma sortScored_sorted (l : List Scored) :
    (sortScored l).Pairwise fun a b => b.fit ≤ a.fit := by
  have h := @List.sorted_mergeSort Scored (fun a b => decide (b.fit ≤ a.fit))
    (fun a b c h1 h2 => by
      simp only [decide_eq_true_eq] at h1 h2 ⊢
      exact le_trans h2 h1)
    (fun a b => by
      simp only [Bool.or_eq_true, decide_eq_true_eq]
      exact le_total b.fit a.fit)
    l
  exact h.imp (fun hb => by simpa using hb)

lemma sortScored_stable (l : List Scored) (a b : Scored)
    (hab : b.fit ≤ a.fit) (h : List.Sublist [a, b] l) :
    List.Sublist [a, b] (sortScored l) :=
  List.pair_sublist_mergeSort
    (fun a b c h1 h2 => by
      simp only [decide_eq_true_eq] at h1 h2 ⊢
      exact le_trans h2 h1)
    (fun a b => by
      simp only [Bool.or_eq_true, decide_eq_true_eq]
      exact le_total b.fit a.fit)
    (by simpa using hab) h

lemma bestFit_ge (l : List Scored) (hs : l.Pairwise fun a b => b.fit ≤ a.fit) :
    ∀ s ∈ l, s.fit ≤ bestFit l := by
  cases l with
  | nil => intro s hmem; simp at hmem
  | cons a t =>
      intro s hmem
      show s.fit ≤ a.fit
      rcases List.mem_cons.mp hmem with rfl | hmem
      · exact le_refl _
      · exact (List.pairwise_cons.mp hs).1 s hmem

lemma evaluate_mem (pop : List (List ℚ)) (s : Scored) (h : s ∈ evaluate pop) :
    s.ind ∈ pop ∧ s.fit = (calculate_fitness s.ind).1 := by
  simp only [evaluate, List.mem_map] at h
  obtain ⟨ind, hind, rfl⟩ := h
  exact ⟨hind, rfl⟩

lemma evaluate_length (pop : List (List ℚ)) : (evaluate pop).length = pop.length := by
  simp [evaluate]

lemma mem_evaluate_of_mem (pop : List (List ℚ)) (ind : List ℚ) (h : ind ∈ pop) :
    (⟨(calculate_fitness ind).1, (calculate_fitness ind).2.1,
      (calculate_fitness ind).2.2, ind⟩ : Scored) ∈ evaluate pop := by
  simp only [evaluate, List.mem_map]
  exact ⟨ind, h, rfl⟩

lemma fill_pop_spec (sorted : List Scored) (k : Nat) (acc : List (List ℚ)) (g : RNG) :
    ∃ tl, (fill_pop sorted k acc g).1 = acc ++ tl ∧ tl.length = k ∧
      (fill_pop sorted k acc g).2.stream = g.stream ∧
      ∀ c ∈ tl, ∃ g2 : RNG, g2.stream = g.stream ∧ c = (reproduce_child sorted g2).1 := by
  induction k generalizing acc g with
  | zero => exact ⟨[], by simp [fill_pop], rfl, rfl, by simp⟩
  | succ n ih =>
      obtain ⟨tl, h1, h2, h3, h4⟩ :=
        ih (acc ++ [(reproduce_child sorted g).1]) (reproduce_child sorted g).2
      refine ⟨(reproduce_child sorted g).1 :: tl, ?_, ?_, ?_, ?_⟩
      · show (fill_pop sorted n (acc ++ [(reproduce_child sorted g).1])
            (reproduce_child sorted g).2).1 = _
        rw [h1, List.append_assoc]
        rfl
      · simpa using h2
      · show (fill_pop sorted n (acc ++ [(reproduce_child sorted g).1])
            (reproduce_child sorted g).2).2.stream = _
        rw [h3, reproduce_child_stream]
      · intro c hc
        rcases List.mem_cons.mp hc with rfl | hc
        · exact ⟨g, rfl, rfl⟩
        · obtain ⟨g2, hg2, hcg⟩ := h4 c hc
          exact ⟨g2, hg2.trans (reproduce_child_stream sorted g), hcg⟩

lemma ga_step_sorted (pop : List (List ℚ)) (g : RNG) :
    (ga_step pop g).1 = sortScored (evaluate pop) := rfl

lemma ga_step_results (pop : List (List ℚ)) (g : RNG) :
    (ga_step pop g).2.1 = (evaluate pop).map fun s => (s.ip, s.cost) := rfl

lemma ga_step_next (pop : List (List ℚ)) (g : RNG) :
    (ga_step pop g).2.2.1 = (fill_pop (sortScored (evaluate pop)) (POPULATION_SIZE - 2)
      [((sortScored (evaluate pop)).getD 0 zeroScored).ind,
       ((sortScored (evaluate pop)).getD 1 zeroScored).ind] g).1 := rfl

lemma ga_step_rng (pop : List (List ℚ)) (g : RNG) :
    (ga_step pop g).2.2.2 = (fill_pop (sortScored (evaluate pop)) (POPULATION_SIZE - 2)
      [((sortScored (evaluate pop)).getD 0 zeroScored).ind,
       ((sortScored (evaluate pop)).getD 1 zeroScored).ind] g).2 := by
  simp only [ga_step]

lemma ga_step_stream (pop : List (List ℚ)) (g : RNG) :
    (ga_step pop g).2.2.2.stream = g.stream := by
  rw [ga_step_rng]
  obtain ⟨tl, -, -, h3, -⟩ := fill_pop_spec (sortScored (evaluate pop))
    (POPULATION_SIZE - 2)
    [((sortScored (evaluate pop)).getD 0 zeroScored).ind,
     ((sortScored (evaluate pop)).getD 1 zeroScored).ind] g
  exact h3

lemma ga_step_next_length (pop : List (List ℚ)) (g : RNG) :
    (ga_step pop g).2.2.1.length = POPULATION_SIZE := by
  rw [ga_step_next]
  obtain ⟨tl, h1, h2, -, -⟩ := fill_pop_spec (sortScored (evaluate pop))
    (POPULATION_SIZE - 2)
    [((sortScored (evaluate pop)).getD 0 zeroScored).ind,
     ((sortScored (evaluate pop)).getD 1 zeroScored).ind] g
  rw [h1]
  simp only [List.length_append, h2, List.length_cons, List.length_nil, POPULATION_SIZE]

lemma draw_list_length (n : Nat) (g : RNG) : (draw_list n g).1.length = n := by
  induction n generalizing g with
  | zero => rfl
  | succ k ih => simp [draw_list, ih]

lemma draw_list_entries (n : Nat) (g : RNG) :
    ∀ x ∈ (draw_list n g).1, ∃ m, x = g.stream m := by
  induction n generalizing g with
  | zero => intro x hx; simp [draw_list] at hx
  | succ k ih =>
      intro x hx
      simp only [draw_list, RNG.next, List.mem_cons] at hx
      rcases hx with rfl | hx
      · exact ⟨g.pos, rfl⟩
      · exact ih ⟨g.stream, g.pos + 1⟩ x hx

lemma init_raw_length (n : Nat) (g : RNG) : (init_raw n g).1.length = n := by
  induction n generalizing g with
  | zero => rfl
  | succ k ih => simp [init_raw, ih]

lemma init_raw_mem (n : Nat) (g : RNG) (hgood : GoodStream g.stream) :
    ∀ ind ∈ (init_raw n g).1, ind.length = 4 ∧ ∀ x ∈ ind, 0 ≤ x := by
  induction n generalizing g with
  | zero => intro ind h; simp [init_raw] at h
  | succ k ih =>
      intro ind h
      simp only [init_raw, List.mem_cons] at h
      rcases h with rfl | h
      · refine ⟨draw_list_length _ g, ?_⟩
        intro x hx
        obtain ⟨m, rfl⟩ := draw_list_entries _ g x hx
        exact (hgood m).1
      · refine ih (draw_list COMPONENT_NAMES.length g).2 ?_ ind h
        rw [draw_list_stream]
        exact hgood

lemma init_raw_pos_sum (n : Nat) (g : RNG) (hpos : ∀ m, 0 < g.stream m) :
    ∀ ind ∈ (init_raw n g).1, 0 < ind.sum := by
  induction n generalizing g with
  | zero => intro ind h; simp [init_raw] at h
  | succ k ih =>
      intro ind h
      simp only [init_raw, List.mem_cons] at h
      rcases h with rfl | h
      · apply List.sum_pos
        · intro x hx
          obtain ⟨m, rfl⟩ := draw_list_entries _ g x hx
          exact hpos m
        · have hl := draw_list_length COMPONENT_NAMES.length g
          intro hnil
          rw [hnil] at hl
          simp [COMPONENT_NAMES] at hl
      · refine ih (draw_list COMPONENT_NAMES.length g).2 ?_ ind h
        intro m
        rw [draw_list_stream]
        exact hpos m

lemma init_pop_simplex (g : RNG) (hgood : GoodStream g.stream)
    (hpos : ∀ ind ∈ (init_raw POPULATION_SIZE g).1, 0 < ind.sum) :
    ∀ ind ∈ (init_raw POPULATION_SIZE g).1.map normalize, OnSimplex ind := by
  intro ind h
  simp only [List.mem_map] at h
  obtain ⟨raw, hraw, rfl⟩ := h
  obtain ⟨hlen, hnn⟩ := init_raw_mem _ g hgood raw hraw
  have hsum := hpos raw hraw
  exact ⟨by rw [normalize_length]; exact hlen,
    normalize_nonneg _ hnn hsum, sum_normalize _ (ne_of_gt hsum)⟩

lemma sortScored_length (l : List Scored) : (sortScored l).length = l.length := by
  rw [sortScored, List.length_mergeSort]

lemma ga_step_sorted_simplex (pop : List (List ℚ)) (g : RNG)
    (hsim : ∀ ind ∈ pop, OnSimplex ind) :
    ∀ s ∈ (ga_step pop g).1, OnSimplex s.ind := by
  intro s hmem
  rw [ga_step_sorted] at hmem
  exact hsim _ (evaluate_mem pop s ((sortScored_perm (evaluate pop)).subset hmem)).1

lemma ga_step_next_simplex (pop : List (List ℚ)) (g : RNG)
    (hgood : GoodStream g.stream) (hpop : 2 ≤ pop.length)
    (hsim : ∀ ind ∈ pop, OnSimplex ind) :
    ∀ ind ∈ (ga_step pop g).2.2.1, OnSimplex ind := by
  have hsorted : ∀ s ∈ sortScored (evaluate pop), OnSimplex s.ind := by
    intro s hmem
    exact hsim _ (evaluate_mem pop s ((sortScored_perm (evaluate pop)).subset hmem)).1
  have hlen2 : 2 ≤ (sortScored (evaluate pop)).length := by
    rw [sortScored_length, evaluate_length]
    exact hpop
  have hne : sortScored (evaluate pop) ≠ [] := by
    intro h
    rw [h] at hlen2
    simp at hlen2
  intro ind hmem
  rw [ga_step_next] at hmem
  obtain ⟨tl, h1, -, -, h4⟩ := fill_pop_spec (sortScored (evaluate pop)) (POPULATION_SIZE - 2)
    [((sortScored (evaluate pop)).getD 0 zeroScored).ind,
     ((sortScored (evaluate pop)).getD 1 zeroScored).ind] g
  rw [h1] at hmem
  rcases List.mem_append.mp hmem with helite | htl
  · have hget : ∀ i, i < (sortScored (evaluate pop)).length →
        OnSimplex ((sortScored (evaluate pop)).getD i zeroScored).ind := by
      intro i hi
      rw [List.getD_eq_getElem _ zeroScored hi]
      exact hsorted _ (List.getElem_mem hi)
    rcases List.mem_cons.mp helite with rfl | helite
    · exact hget 0 (by omega)
    · rcases List.mem_cons.mp helite with rfl | helite
      · exact hget 1 (by omega)
      · simp at helite
  · obtain ⟨g2, hg2, rfl⟩ := h4 ind htl
    have hgood2 : GoodStream g2.stream := by rw [hg2]; exact hgood
    exact reproduce_child_simplex _ _ hgood2 hne hsorted

lemma ga_loop_simplex (k : Nat) (pop : List (List ℚ)) (hist : List (ℚ × ℚ))
    (gens : List (List Scored)) (g : RNG)
    (hgood : GoodStream g.stream) (hpop : 2 ≤ pop.length)
    (hsim : ∀ ind ∈ pop, OnSimplex ind)
    (hgens : ∀ gl ∈ gens, ∀ s ∈ gl, OnSimplex s.ind) :
    ∀ gl ∈ (ga_loop k pop hist gens g).1, ∀ s ∈ gl, OnSimplex s.ind := by
  induction k generalizing pop hist gens g with
  | zero => exact hgens
  | succ n ih =>
      show ∀ gl ∈ (ga_loop n (ga_step pop g).2.2.1 (hist ++ (ga_step pop g).2.1)
        (gens ++ [(ga_step pop g).1]) (ga_step pop g).2.2.2).1, ∀ s ∈ gl, OnSimplex s.ind
      refine ih _ _ _ _ ?_ ?_ ?_ ?_
      · rw [ga_step_stream]
        exact hgood
      · rw [ga_step_next_length]
        norm_num [POPULATION_SIZE]
      · exact ga_step_next_simplex pop g hgood hpop hsim
      · intro gl hgl
        rcases List.mem_append.mp hgl with hgl | hgl
        · exact hgens gl hgl
        · rw [List.mem_singleton] at hgl
          subst hgl
          exact ga_step_sorted_simplex pop g hsim

lemma ga_loop_gens_length (k : Nat) (pop : List (List ℚ)) (hist : List (ℚ × ℚ))
    (gens : List (List Scored)) (g : RNG) :
    (ga_loop k pop hist gens g).1.length = gens.length + k := by
  induction k generalizing pop hist gens g with
  | zero => rfl
  | succ n ih =>
      show (ga_loop n (ga_step pop g).2.2.1 (hist ++ (ga_step pop g).2.1)
        (gens ++ [(ga_step pop g).1]) (ga_step pop g).2.2.2).1.length = _
      rw [ih]
      simp only [List.length_append, List.length_cons, List.length_nil]
      omega

lemma run_ga_gens_length (g : RNG) : (run_ga g).1.length = GENERATIONS := by
  show (ga_loop GENERATIONS ((init_raw POPULATION_SIZE g).1.map normalize) [] []
      (init_raw POPULATION_SIZE g).2).1.length = GENERATIONS
  rw [ga_loop_gens_length]
  simp

lemma ga_loop_hist_length (k : Nat) (pop : List (List ℚ)) (hist : List (ℚ × ℚ))
    (gens : List (List Scored)) (g : RNG) (hpop : pop.length = POPULATION_SIZE) :
    (ga_loop k pop hist gens g).2.1.length = hist.length + k * POPULATION_SIZE := by
  induction k generalizing pop hist gens g with
  | zero => rfl
  | succ n ih =>
      show (ga_loop n (ga_step pop g).2.2.1 (hist ++ (ga_step pop g).2.1)
        (gens ++ [(ga_step pop g).1]) (ga_step pop g).2.2.2).2.1.length = _
      rw [ih _ _ _ _ (ga_step_next_length pop g), List.length_append, ga_step_results,
        List.length_map, evaluate_length, hpop]
      ring

lemma ga_loop_hist_prefix (k : Nat) (pop : List (List ℚ)) (hist : List (ℚ × ℚ))
    (gens : List (List Scored)) (g : RNG) :
    hist <+: (ga_loop k pop hist gens g).2.1 := by
  induction k generalizing pop hist gens g with
  | zero => exact List.prefix_rfl
  | succ n ih =>
      show hist <+: (ga_loop n (ga_step pop g).2.2.1 (hist ++ (ga_step pop g).2.1)
        (gens ++ [(ga_step pop g).1]) (ga_step pop g).2.2.2).2.1
      exact (List.prefix_append hist (ga_step pop g).2.1).trans (ih _ _ _ _)

lemma ga_loop_chain (k : Nat) (pop : List (List ℚ)) (hist : List (ℚ × ℚ))
    (gens : List (List Scored)) (g : RNG)
    (hpop : 2 ≤ pop.length)
    (hgens : ∀ j, j + 1 < gens.length →
      bestFit (gens.getD j []) ≤ bestFit (gens.getD (j+1) []))
    (hlink : gens = [] ∨ ∃ ind ∈ pop,
      bestFit (gens.getD (gens.length - 1) []) ≤ (calculate_fitness ind).1) :
    ∀ j, j + 1 < (ga_loop k pop hist gens g).1.length →
      bestFit ((ga_loop k pop hist gens g).1.getD j []) ≤
      bestFit ((ga_loop k pop hist gens g).1.getD (j+1) []) := by
  induction k generalizing pop hist gens g with
  | zero => exact hgens
  | succ n ih =>
      have hslen : (sortScored (evaluate pop)).length = pop.length := by
        rw [sortScored_length, evaluate_length]
      have hspos : 0 < (sortScored (evaluate pop)).length := by omega
      have hsorted := sortScored_sorted (evaluate pop)
      have hhead : (sortScored (evaluate pop)).getD 0 zeroScored ∈ sortScored (evaluate pop) := by
        rw [List.getD_eq_getElem _ zeroScored hspos]
        exact List.getElem_mem hspos
      have hheadfit : ((sortScored (evaluate pop)).getD 0 zeroScored).fit =
          (calculate_fitness ((sortScored (evaluate pop)).getD 0 zeroScored).ind).1 :=
        (evaluate_mem pop _ ((sortScored_perm (evaluate pop)).subset hhead)).2
      show ∀ j, j + 1 < (ga_loop n (ga_step pop g).2.2.1 (hist ++ (ga_step pop g).2.1)
          (gens ++ [(ga_step pop g).1]) (ga_step pop g).2.2.2).1.length →
        bestFit ((ga_loop n (ga_step pop g).2.2.1 (hist ++ (ga_step pop g).2.1)
          (gens ++ [(ga_step pop g).1]) (ga_step pop g).2.2.2).1.getD j []) ≤
        bestFit ((ga_loop n (ga_step pop g).2.2.1 (hist ++ (ga_step pop g).2.1)
          (gens ++ [(ga_step pop g).1]) (ga_step pop g).2.2.2).1.getD (j+1) [])
      refine ih _ _ _ _ ?_ ?_ ?_
      · rw [ga_step_next_length]
        norm_num [POPULATION_SIZE]
      · -- the appended chain stays monotone
        intro j hj
        simp only [List.length_append, List.length_cons, List.length_nil] at hj
        by_cases hcase : j + 1 < gens.length
        · rw [List.getD_append _ _ _ _ (by omega), List.getD_append _ _ _ _ (by omega)]
          exact hgens j hcase
        · have hj1 : j + 1 = gens.length := by omega
          have hj0 : j < gens.length := by omega
          have hgne : gens ≠ [] := by
            intro h
            rw [h] at hj0
            simp at hj0
          rw [List.getD_append _ _ _ _ hj0]
          have hr : (gens ++ [(ga_step pop g).1]).getD (j+1) [] = (ga_step pop g).1 := by
            rw [hj1, List.getD_append_right _ _ _ _ (le_refl _)]
            simp
          rw [hr]
          rcases hlink with h | ⟨ind, hind, hle⟩
          · exact absurd h hgne
          · have hj2 : j = gens.length - 1 := by omega
            rw [hj2]
            refine le_trans hle ?_
            have hmem := mem_evaluate_of_mem pop ind hind
            have hmem2 := (sortScored_perm (evaluate pop)).mem_iff.mpr hmem
            have := bestFit_ge (sortScored (evaluate pop)) hsorted _ hmem2
            rw [ga_step_sorted]
            exact this
      · -- the new link: the elite carried into the next population realizes the best fitness
        right
        refine ⟨((sortScored (evaluate pop)).getD 0 zeroScored).ind, ?_, ?_⟩
        · rw [ga_step_next]
          obtain ⟨tl, h1, -, -, -⟩ := fill_pop_spec (sortScored (evaluate pop))
            (POPULATION_SIZE - 2)
            [((sortScored (evaluate pop)).getD 0 zeroScored).ind,
             ((sortScored (evaluate pop)).getD 1 zeroScored).ind] g
          rw [h1]
          exact List.mem_append_left _ (List.mem_cons_self _ _)
        · have hlast : (gens ++ [(ga_step pop g).1]).getD
              ((gens ++ [(ga_step pop g).1]).length - 1) [] = (ga_step pop g).1 := by
            simp only [List.length_append, List.length_cons, List.length_nil]
            rw [List.getD_append_right _ _ _ _ (by omega)]
            simp
          rw [hlast, ga_step_sorted]
          rw [← hheadfit]
          exact le_refl _

/-! ## Claim theorems (part 2) -/

/-- C10: whenever every ranked individual lies on the simplex, the child
assembled by the reproduce step has, just before renormalization, an entry
sum of at least 0.98 = 49/50 (the crossover mean sums to 1, mutation moves
the sum by less than 0.02, clamping can only increase it); in particular the
sum is nonzero and the renormalization division never raises. -/
theorem child_sum_lower_bound (sorted : List Scored) (g : RNG)
    (hgood : GoodStream g.stream) (hne : sorted ≠ [])
    (hsim : ∀ s ∈ sorted, OnSimplex s.ind) :
    49/50 ≤ (reproduce_raw sorted g).1.sum ∧
    (reproduce_raw sorted g).1.sum ≠ 0 ∧
    normalize_opt (reproduce_raw sorted g).1 =
      some (normalize (reproduce_raw sorted g).1) := by
  obtain ⟨-, -, hs⟩ := reproduce_raw_spec sorted g hgood hne hsim
  have hne0 : (reproduce_raw sorted g).1.sum ≠ 0 := by
    intro h0
    rw [h0] at hs
    norm_num at hs
  exact ⟨hs, hne0, by simp [normalize_opt, hne0]⟩

/-- Witness for C10 at a single simplex parent and the constant-1/2 stream. -/
theorem child_sum_lower_bound_witness :
    49/50 ≤ (reproduce_raw [⟨0, 0, 0, [1, 0, 0, 0]⟩] ⟨fun _ => 1/2, 0⟩).1.sum ∧
    (reproduce_raw [⟨0, 0, 0, [1, 0, 0, 0]⟩] ⟨fun _ => 1/2, 0⟩).1.sum ≠ 0 ∧
    normalize_opt (reproduce_raw [⟨0, 0, 0, [1, 0, 0, 0]⟩] ⟨fun _ => 1/2, 0⟩).1 =
      some (normalize (reproduce_raw [⟨0, 0, 0, [1, 0, 0, 0]⟩] ⟨fun _ => 1/2, 0⟩).1) :=
  child_sum_lower_bound _ _ (fun n => ⟨by norm_num, by norm_num⟩) (by simp)
    (by
      intro s hmem
      rw [List.mem_singleton] at hmem
      subst hmem
      refine ⟨rfl, ?_, by norm_num⟩
      intro x hx
      fin_cases hx <;> norm_num)

/-- C3: under a well-formed random stream, and whenever the raw initial draws
all have positive sums (so that initialization completes), every Individual of
every generation's scored Population lies on the probability simplex: length
4, nonnegative entries, and entry sum exactly 1 — in particular within the
1e-9 tolerance. -/
theorem population_simplex_invariant (g : RNG) (hgood : GoodStream g.stream)
    (hinit : ∀ ind ∈ (init_raw POPULATION_SIZE g).1, 0 < ind.sum) :
    ∀ gl ∈ (run_ga g).1, ∀ s ∈ gl,
      s.ind.length = 4 ∧ (∀ x ∈ s.ind, 0 ≤ x) ∧ s.ind.sum = 1 ∧
      |s.ind.sum - 1| ≤ 1/1000000000 := by
  have hgood2 : GoodStream (init_raw POPULATION_SIZE g).2.stream := by
    rw [init_raw_stream]
    exact hgood
  have hpop : 2 ≤ ((init_raw POPULATION_SIZE g).1.map normalize).length := by
    rw [List.length_map, init_raw_length]
    norm_num [POPULATION_SIZE]
  have base := ga_loop_simplex GENERATIONS ((init_raw POPULATION_SIZE g).1.map normalize)
    [] [] (init_raw POPULATION_SIZE g).2 hgood2 hpop
    (init_pop_simplex g hgood hinit) (by simp)
  intro gl hgl s hs
  obtain ⟨h1, h2, h3⟩ := base gl hgl s hs
  exact ⟨h1, h2, h3, by rw [h3]; norm_num⟩

/-- Witness for C3 at the constant-1/2 stream. -/
theorem population_simplex_invariant_witness :
    (∀ _n : Nat, 0 ≤ ((1 : ℚ)/2) ∧ ((1 : ℚ)/2) < 1) ∧
    ∀ gl ∈ (run_ga ⟨fun _ => 1/2, 0⟩).1, ∀ s ∈ gl,
      s.ind.length = 4 ∧ (∀ x ∈ s.ind, 0 ≤ x) ∧ s.ind.sum = 1 ∧
      |s.ind.sum - 1| ≤ 1/1000000000 :=
  ⟨fun _ => ⟨by norm_num, by norm_num⟩,
   population_simplex_invariant ⟨fun _ => 1/2, 0⟩ (fun _ => ⟨by norm_num, by norm_num⟩)
     (init_raw_pos_sum POPULATION_SIZE ⟨fun _ => 1/2, 0⟩ (fun _ => by norm_num))⟩

/-- C4: for every run and every random stream, because the top-2 compositions
are carried unmodified into the next population and the fitness evaluator is a
deterministic function, the best (rank-0) fitness of generation k+1 is at
least the best fitness of generation k. -/
theorem best_fitness_monotone (g : RNG) (k : Nat)
    (hk : k + 1 < (run_ga g).1.length) :
    bestFit ((run_ga g).1.getD k []) ≤ bestFit ((run_ga g).1.getD (k+1) []) := by
  have h := ga_loop_chain GENERATIONS ((init_raw POPULATION_SIZE g).1.map normalize)
    [] [] (init_raw POPULATION_SIZE g).2
    (by rw [List.length_map, init_raw_length]; norm_num [POPULATION_SIZE])
    (by intro j hj; simp at hj)
    (Or.inl rfl)
  exact h k hk

/-- Witness for C4 at the constant-zero stream, generations 0 and 1. -/
theorem best_fitness_monotone_witness :
    0 + 1 < (run_ga ⟨fun _ => 0, 0⟩).1.length ∧
    bestFit ((run_ga ⟨fun _ => 0, 0⟩).1.getD 0 []) ≤
      bestFit ((run_ga ⟨fun _ => 0, 0⟩).1.getD 1 []) :=
  have hk : 0 + 1 < (run_ga (⟨fun _ => 0, 0⟩ : RNG)).1.length := by
    rw [run_ga_gens_length]
    norm_num [GENERATIONS]
  ⟨hk, best_fitness_monotone ⟨fun _ => 0, 0⟩ 0 hk⟩

/-- C9: after a full run the recorded history holds exactly
POPULATION_SIZE * GENERATIONS (stability, cost) pairs — one per individual
per generation — and the loop only ever appends to the history (the incoming
history is always a prefix of the outgoing one). -/
theorem history_length_run (g : RNG) :
    (run_ga g).2.1.length = POPULATION_SIZE * GENERATIONS ∧
    ∀ (k : Nat) (pop : List (List ℚ)) (hist : List (ℚ × ℚ))
      (gens : List (List Scored)) (g2 : RNG),
      hist <+: (ga_loop k pop hist gens g2).2.1 := by
  constructor
  · show (ga_loop GENERATIONS ((init_raw POPULATION_SIZE g).1.map normalize) [] []
        (init_raw POPULATION_SIZE g).2).2.1.length = POPULATION_SIZE * GENERATIONS
    rw [ga_loop_hist_length _ _ _ _ _ (by rw [List.length_map, init_raw_length])]
    simp [Nat.mul_comm]
  · intro k pop hist gens g2
    exact ga_loop_hist_prefix k pop hist gens g2

lemma reproduce_child_shape (sorted : List Scored) (g : RNG)
    (hgood : GoodStream g.stream) (hne : sorted ≠ [])
    (hlen4 : ∀ s ∈ sorted, s.ind.length = 4) :
    ∃ s1 ∈ sorted.take 10, ∃ s2 ∈ sorted.take 10,
      (reproduce_child sorted g).1 = normalize (clamp0 (crossover_mean s1.ind s2.ind)) ∨
      ∃ i off, i < 4 ∧ -(2/100) ≤ off ∧ off < 2/100 ∧
        (reproduce_child sorted g).1 = normalize (clamp0
          ((crossover_mean s1.ind s2.ind).set i
            ((crossover_mean s1.ind s2.ind).getD i 0 + off))) := by
  have htk := take10_ne sorted hne
  refine ⟨(rand_choice (sorted.take 10) zeroScored g).1,
    rand_choice_mem _ _ _ hgood htk,
    (rand_choice (sorted.take 10) zeroScored
      (rand_choice (sorted.take 10) zeroScored g).2).1,
    rand_choice_mem _ _ _ hgood htk, ?_⟩
  set c1 := rand_choice (sorted.take 10) zeroScored g with hc1
  set c2 := rand_choice (sorted.take 10) zeroScored c1.2 with hc2
  have hm1 : c1.1 ∈ sorted.take 10 := by
    rw [hc1]; exact rand_choice_mem _ _ _ hgood htk
  have hm2 : c2.1 ∈ sorted.take 10 := by
    rw [hc2]; exact rand_choice_mem _ _ _ hgood htk
  have hl1 : c1.1.ind.length = 4 := hlen4 _ (List.take_subset _ _ hm1)
  have hl2 : c2.1.ind.length = 4 := hlen4 _ (List.take_subset _ _ hm2)
  have hchl : (crossover_mean c1.1.ind c2.1.ind).length = 4 := by
    rw [crossover_mean_length, hl1, hl2]
    exact min_self 4
  have hraw : (reproduce_child sorted g).1 =
      normalize (clamp0 (mutate_step (crossover_mean c1.1.ind c2.1.ind) c2.2).1) := rfl
  rcases mutate_step_shape (crossover_mean c1.1.ind c2.1.ind) c2.2 hgood (by omega)
    with heq | ⟨i, off, hi, hlo, hhi, heq⟩
  · left
    rw [hraw, heq]
  · right
    rw [hchl] at hi
    exact ⟨i, off, hi, hlo, hhi, by rw [hraw, heq]⟩

/-- C5: the generation step: (1) the scored list is ranked as a permutation of
the evaluations, (2) sorted by fitness descending, (3) with a stable
tie-break — any fitness-nonincreasing pair keeps its original relative order;
(4) the next population has exactly POPULATION_SIZE members, (5) its first two
are the top-2 compositions unchanged; and (6) every further member is built
from two parents drawn from the top 10 as the elementwise mean, optionally
mutated at one index by an offset within [-0.02, 0.02], clamped at 0 and
renormalized. -/
theorem generation_step_spec (pop : List (List ℚ)) (g : RNG)
    (hgood : GoodStream g.stream) (hpop : 2 ≤ pop.length)
    (hlen : ∀ ind ∈ pop, ind.length = 4) :
    (ga_step pop g).1.Perm (evaluate pop) ∧
    (ga_step pop g).1.Pairwise (fun a b => b.fit ≤ a.fit) ∧
    (∀ a b : Scored, List.Sublist [a, b] (evaluate pop) → b.fit ≤ a.fit →
      List.Sublist [a, b] (ga_step pop g).1) ∧
    (ga_step pop g).2.2.1.length = POPULATION_SIZE ∧
    (ga_step pop g).2.2.1.take 2 =
      [((ga_step pop g).1.getD 0 zeroScored).ind,
       ((ga_step pop g).1.getD 1 zeroScored).ind] ∧
    ∀ c ∈ (ga_step pop g).2.2.1.drop 2,
      ∃ s1 ∈ (ga_step pop g).1.take 10, ∃ s2 ∈ (ga_step pop g).1.take 10,
        c = normalize (clamp0 (crossover_mean s1.ind s2.ind)) ∨
        ∃ i off, i < 4 ∧ -(2/100) ≤ off ∧ off < 2/100 ∧
          c = normalize (clamp0 ((crossover_mean s1.ind s2.ind).set i
            ((crossover_mean s1.ind s2.ind).getD i 0 + off))) := by
  have hslen : (sortScored (evaluate pop)).length = pop.length := by
    rw [sortScored_length, evaluate_length]
  have hne : sortScored (evaluate pop) ≠ [] := by
    intro h
    rw [h] at hslen
    simp at hslen
    omega
  have hlen4 : ∀ s ∈ sortScored (evaluate pop), s.ind.length = 4 := by
    intro s hmem
    exact hlen _ (evaluate_mem pop s ((sortScored_perm (evaluate pop)).subset hmem)).1
  obtain ⟨tl, h1, -, -, h4⟩ := fill_pop_spec (sortScored (evaluate pop))
    (POPULATION_SIZE - 2)
    [((sortScored (evaluate pop)).getD 0 zeroScored).ind,
     ((sortScored (evaluate pop)).getD 1 zeroScored).ind] g
  refine ⟨?_, ?_, ?_, ga_step_next_length pop g, ?_, ?_⟩
  · rw [ga_step_sorted]
    exact sortScored_perm (evaluate pop)
  · rw [ga_step_sorted]
    exact sortScored_sorted (evaluate pop)
  · intro a b hsub hab
    rw [ga_step_sorted]
    exact sortScored_stable (evaluate pop) a b hab hsub
  · rw [ga_step_next, h1, ga_step_sorted]
    rfl
  · intro c hc
    rw [ga_step_next, h1] at hc
    have hc2 : c ∈ tl := by
      simpa using hc
    obtain ⟨g2, hg2, rfl⟩ := h4 c hc2
    have hgood2 : GoodStream g2.stream := by rw [hg2]; exact hgood
    rw [ga_step_sorted]
    exact reproduce_child_shape (sortScored (evaluate pop)) g2 hgood2 hne hlen4

/-- Witness for C5 at a concrete two-member population and the constant-1/2
stream. -/
theorem generation_step_spec_witness :
    (ga_step [[1, 0, 0, 0], [0, 1, 0, 0]] ⟨fun _ => 1/2, 0⟩).1.Perm
      (evaluate [[1, 0, 0, 0], [0, 1, 0, 0]]) ∧
    (ga_step [[1, 0, 0, 0], [0, 1, 0, 0]] ⟨fun _ => 1/2, 0⟩).1.Pairwise
      (fun a b => b.fit ≤ a.fit) ∧
    (∀ a b : Scored, List.Sublist [a, b] (evaluate [[1, 0, 0, 0], [0, 1, 0, 0]]) →
      b.fit ≤ a.fit →
      List.Sublist [a, b] (ga_step [[1, 0, 0, 0], [0, 1, 0, 0]] ⟨fun _ => 1/2, 0⟩).1) ∧
    (ga_step [[1, 0, 0, 0], [0, 1, 0, 0]] ⟨fun _ => 1/2, 0⟩).2.2.1.length =
      POPULATION_SIZE ∧
    (ga_step [[1, 0, 0, 0], [0, 1, 0, 0]] ⟨fun _ => 1/2, 0⟩).2.2.1.take 2 =
      [((ga_step [[1, 0, 0, 0], [0, 1, 0, 0]] ⟨fun _ => 1/2, 0⟩).1.getD 0 zeroScored).ind,
       ((ga_step [[1, 0, 0, 0], [0, 1, 0, 0]] ⟨fun _ => 1/2, 0⟩).1.getD 1 zeroScored).ind] ∧
    ∀ c ∈ (ga_step [[1, 0, 0, 0], [0, 1, 0, 0]] ⟨fun _ => 1/2, 0⟩).2.2.1.drop 2,
      ∃ s1 ∈ (ga_step [[1, 0, 0, 0], [0, 1, 0, 0]] ⟨fun _ => 1/2, 0⟩).1.take 10,
      ∃ s2 ∈ (ga_step [[1, 0, 0, 0], [0, 1, 0, 0]] ⟨fun _ => 1/2, 0⟩).1.take 10,
        c = normalize (clamp0 (crossover_mean s1.ind s2.ind)) ∨
        ∃ i off, i < 4 ∧ -(2/100) ≤ off ∧ off < 2/100 ∧
          c = normalize (clamp0 ((crossover_mean s1.ind s2.ind).set i
            ((crossover_mean s1.ind s2.ind).getD i 0 + off))) :=
  generation_step_spec [[1, 0, 0, 0], [0, 1, 0, 0]] ⟨fun _ => 1/2, 0⟩
    (fun _ => ⟨by norm_num, by norm_num⟩)
    (by simp)
    (by
      intro ind h
      fin_cases h <;> rfl)

end BiOxiOptimize
